import Mathlib

/-!
Shallow embedding of `scrape.py` (sjs-calendar/ical): the availability
normalization engine (`get_range_status`), the per-period parser
(`parse_boats`), the per-period accumulator (`collect_boats`) and the
orchestration loop in `main`, together with theorems settling the frozen
claims about the natural-language specification.

Python `datetime(year, month, day)` values are embedded as `Date` triples;
the ISO strings produced by `datetime.isoformat()` are embedded as lists of
character code points (`isoCodes`), since the program sorts observations by
that string key; date subtraction `.days` is embedded through the proleptic
Gregorian ordinal (`toOrdinal`, matching Python's `date.toordinal`).
-/

namespace Scrape

/-- Embedding of a Python `datetime(year, month, day)` (midnight time part). -/
structure Date where
  year : Nat
  month : Nat
  day : Nat
deriving DecidableEq, Repr

/-- Gregorian leap-year rule, as in Python's `calendar.isleap`. -/
def isLeap (y : Nat) : Bool :=
  (y % 4 == 0 && y % 100 != 0) || y % 400 == 0

/-- Days in a month, as in CPython's `_DAYS_IN_MONTH` table (with the
February leap correction); months outside 1..12 are sentinels. -/
def daysInMonth (y m : Nat) : Nat :=
  match m with
  | 1 | 3 | 5 | 7 | 8 | 10 | 12 => 31
  | 2 => if isLeap y then 29 else 28
  | 4 | 6 | 9 | 11 => 30
  | _ => 0

/-- Days in the year before month `m`, as in CPython's `_DAYS_BEFORE_MONTH`
table plus the leap correction for months after February. -/
def daysBeforeMonthTable (m : Nat) : Nat :=
  match m with
  | 1 => 0 | 2 => 31 | 3 => 59 | 4 => 90 | 5 => 120 | 6 => 151 | 7 => 181
  | 8 => 212 | 9 => 243 | 10 => 273 | 11 => 304 | 12 => 334
  | _ => 0

/-- Python `_days_before_month(year, month)`. -/
def daysBeforeMonth (y m : Nat) : Nat :=
  daysBeforeMonthTable m + (if 2 < m ∧ isLeap y then 1 else 0)

/-- Number of days in year `y`. -/
def daysInYear (y : Nat) : Nat := if isLeap y then 366 else 365

/-- Days before January 1 of year `y` (Python `_days_before_year`). -/
def daysBeforeYear (y : Nat) : Nat :=
  365 * (y - 1) + (y - 1) / 4 + (y - 1) / 400 - (y - 1) / 100

/-- Proleptic Gregorian ordinal of a date (Python `date.toordinal`):
day 1 is January 1 of year 1. -/
def toOrdinal (d : Date) : Nat :=
  daysBeforeYear d.year + daysBeforeMonth d.year d.month + d.day

/-- The ordinal as an integer, for embedding `(d2 - d1).days`. -/
def ordZ (d : Date) : Int := (toOrdinal d : Int)

/-- A date accepted by Python's `datetime` constructor. -/
def ValidDate (d : Date) : Prop :=
  1 ≤ d.year ∧ d.year ≤ 9999 ∧ 1 ≤ d.month ∧ d.month ≤ 12 ∧
    1 ≤ d.day ∧ d.day ≤ daysInMonth d.year d.month

instance (d : Date) : Decidable (ValidDate d) := by
  unfold ValidDate; infer_instance

/-- Code points of the 4 decimal digits of `n` (zero padded), offset 48 = '0'. -/
def digitCodes4 (n : Nat) : List Nat :=
  [48 + n / 1000, 48 + n / 100 % 10, 48 + n / 10 % 10, 48 + n % 10]

/-- Code points of the 2 decimal digits of `n` (zero padded). -/
def digitCodes2 (n : Nat) : List Nat :=
  [48 + n / 10, 48 + n % 10]

/-- Code points of `datetime(year, month, day).isoformat()`, i.e. the string
`YYYY-MM-DDT00:00:00` (45 = '-', 84 = 'T', 58 = ':', 48 = '0'). -/
def isoCodes (d : Date) : List Nat :=
  digitCodes4 d.year ++ 45 :: digitCodes2 d.month ++ 45 :: digitCodes2 d.day ++
    [84, 48, 48, 58, 48, 48, 58, 48, 48]

/-- Strict lexicographic order on code point lists: Python's `<` on strings. -/
def lexLt : List Nat → List Nat → Bool
  | [], [] => false
  | [], _ :: _ => true
  | _ :: _, [] => false
  | a :: as, b :: bs => if a < b then true else if b < a then false else lexLt as bs

/-- Non-strict lexicographic order: Python's `<=` on strings. -/
def lexLe (xs ys : List Nat) : Bool := !lexLt ys xs

/-- Status codes that flow through the program.  `parse_boats` emits the
strings "Unavailable" and "Booked"; `get_range_status` additionally produces
'Last Day Off-Season' and 'First Day Off-Season'; "Available" appears in the
specification's status enumeration (the corresponding parser branch is
commented out in the source). -/
inductive Status where
  | available
  | booked
  | unavailable
  | lastDayOffSeason
  | firstDayOffSeason
deriving DecidableEq, Repr

/-- One per-day observation `(iso_date, status)`; the date is carried as the
underlying `Date` (the program round-trips it through `isoformat` /
`fromisoformat`). -/
abbrev Obs := Date × Status

/-- One contiguous range `(start_date, end_date, status)`, both ends inclusive. -/
abbrev Range := Date × Date × Status

/-- Sort key comparison used by `sorted(day_status, key=lambda x: x[0])`:
compare the ISO strings of the dates. -/
def obsKeyLe (a b : Obs) : Bool := lexLe (isoCodes a.1) (isoCodes b.1)

/-- The key comparison as a relation. -/
def keyRel (a b : Obs) : Prop := obsKeyLe a b = true

instance : DecidableRel keyRel := fun a b => by unfold keyRel; infer_instance

/-- `sorted(day_status, key=lambda x: x[0])`: Python's `sorted` is a stable
sort by the key under its total preorder, and a stable sort by a total
preorder has a unique result, embedded here as stable insertion sort. -/
def sortObs (l : List Obs) : List Obs := List.insertionSort keyRel l

/-- The scan loop of `get_range_status` (scrape.py lines 106-118): state is
the open range `(sd, ed, st)`; an observation extends it exactly when its
status matches and its date is one day after the current end, otherwise the
open range is emitted and a new single-day range is opened. -/
def scanLoop (sd ed : Date) (st : Status) : List Obs → List Range
  | [] => [(sd, ed, st)]
  | (d, s) :: rest =>
    if s = st ∧ ordZ d - ordZ ed = 1 then
      scanLoop sd d st rest
    else
      (sd, ed, st) :: scanLoop d d s rest

/-- The scan of a sorted observation list (lines 99-118): the first
observation seeds the open range. -/
def scanRanges : List Obs → List Range
  | [] => []
  | (d, s) :: rest => scanLoop d d s rest

/-- Lines 121-123: if the first range is `Unavailable`, replace it with the
single-day marker `(end, end, 'Last Day Off-Season')`. -/
def fixFirst : List Range → List Range
  | [] => []
  | (sd, ed, st) :: rest =>
    if st = Status.unavailable then (ed, ed, Status.lastDayOffSeason) :: rest
    else (sd, ed, st) :: rest

/-- Lines 126-128: if the last range is `Unavailable`, replace it with the
single-day marker `(start, start, 'First Day Off-Season')`. -/
def fixLast (l : List Range) : List Range :=
  match l.getLast? with
  | none => l
  | some (sd, _, st) =>
    if st = Status.unavailable then l.dropLast ++ [(sd, sd, Status.firstDayOffSeason)]
    else l

/-- The boundary-correction block (lines 120-128) on a non-empty list:
first-range rule, then last-range rule, in that order. -/
def boundary_correct (l : List Range) : List Range := fixLast (fixFirst l)

/-- The boundary-correction block (lines 120-128) invoked standalone: on an
empty list the subscript `grouped[0]` raises `IndexError`, modeled as `none`. -/
def boundaryCorrectChecked : List Range → Option (List Range)
  | [] => none
  | r :: rest => some (boundary_correct (r :: rest))

/-- `get_range_status` (lines 91-130): empty input returns `[]` before the
correction block is reached; otherwise sort, scan, then boundary-correct. -/
def get_range_status (day_status : List Obs) : List Range :=
  match sortObs day_status with
  | [] => []
  | (d, s) :: rest => boundary_correct (scanLoop d d s rest)

/-- Category of a day cell in the vendor table, per its CSS classes. -/
inductive CellClass where
  | cbgM
  | cbgB4Web
  | other
deriving DecidableEq, Repr

/-- One table cell: its text (a day number, or `none` for non-numeric text,
which is skipped) and its class category. -/
structure Cell where
  dayText : Option Nat
  cls : CellClass
deriving DecidableEq, Repr

/-- The per-cell branch of `parse_boats` (lines 63-82): `CbgM` becomes an
`Unavailable` observation, `CbgB4Web` a `Booked` one, everything else is
dropped. -/
def cellObs (year month : Nat) (c : Cell) : Option Obs :=
  match c.dayText with
  | none => none
  | some day =>
    match c.cls with
    | CellClass.cbgM => some (⟨year, month, day⟩, Status.unavailable)
    | CellClass.cbgB4Web => some (⟨year, month, day⟩, Status.booked)
    | CellClass.other => none

/-- The availability list accumulated for one row (lines 62-82). -/
def rowAvailability (year month : Nat) (cells : List Cell) : List Obs :=
  cells.filterMap (cellObs year month)

/-- A Python dict (insertion ordered) keyed by boat name, as an assoc list. -/
abbrev BoatMap := List (String × List Obs)

/-- The per-boat result map of `main`, keyed by boat name. -/
abbrev RangeMap := List (String × List Range)

/-- Python dict assignment `m[k] = v`: replace in place, else append. -/
def updateA {β : Type} : List (String × β) → String → β → List (String × β)
  | [], k, v => [(k, v)]
  | (k', v') :: rest, k, v =>
    if k' = k then (k', v) :: rest else (k', v') :: updateA rest k v

/-- Python dict lookup `m[k]` / `k in m`. -/
def lookupA {β : Type} : List (String × β) → String → Option β
  | [], _ => none
  | (k', v) :: rest, k => if k' = k then some v else lookupA rest k

/-- `parse_boats` (lines 39-87), from the point where each table row has been
resolved to a boat name and its day cells: a boat is recorded only
`if availability:` is non-empty. -/
def parse_boats (rows : List (String × List Cell)) (year month : Nat) : BoatMap :=
  rows.foldl
    (fun boats row =>
      let availability := rowAvailability year month row.2
      if availability = [] then boats else updateA boats row.1 availability)
    []

/-- The accumulation loop of `collect_boats` (lines 212-216): merge one
period's boat map into `out_boats`, extending existing entries in place and
appending new boats. -/
def collect_boats (boats : BoatMap) (out_boats : BoatMap) : BoatMap :=
  boats.foldl
    (fun out bd =>
      match lookupA out bd.1 with
      | none => out ++ [(bd.1, bd.2)]
      | some old => updateA out bd.1 (old ++ bd.2))
    out_boats

/-- The consolidation loop of `main` (lines 234-239): for every boat in
`year_boats`, append `get_range_status` of its accumulated observations to
its entry in `range_boats`. -/
def yearConsolidate (year_boats : BoatMap) (range_boats : RangeMap) : RangeMap :=
  year_boats.foldl
    (fun rb bd =>
      let range_status := get_range_status bd.2
      match lookupA rb bd.1 with
      | none => rb ++ [(bd.1, range_status)]
      | some old => updateA rb bd.1 (old ++ range_status))
    range_boats

/-- The year loop of `main` (lines 226-239): `year_boats` is created once and
never cleared between years, so each year's consolidation runs over all
observations accumulated so far; the input is the list of per-year lists of
per-month boat maps (what `collect_boats` obtains for each period). -/
def main_range_boats (years : List (List BoatMap)) : RangeMap :=
  (years.foldl
      (fun acc periods =>
        let yb := periods.foldl (fun yb p => collect_boats p yb) acc.1
        (yb, yearConsolidate yb acc.2))
      (([] : BoatMap), ([] : RangeMap))).2

/-- The spec's output invariant for a vessel timeline: ranges strictly
increasing in start date and pairwise non-overlapping (inclusive ranges). -/
def TimelineInv (l : List Range) : Prop :=
  l.Pairwise (fun a b => ordZ a.1 < ordZ b.1) ∧
    l.Pairwise (fun a b => ordZ a.2.1 < ordZ b.1 ∨ ordZ b.2.1 < ordZ a.1)

instance (l : List Range) : Decidable (TimelineInv l) := by
  unfold TimelineInv; infer_instance

/-- Key list of a boat map, in insertion order. -/
def keysOf {β : Type} (m : List (String × β)) : List String := m.map Prod.fst

/-- Chronological order on date triples: year, then month, then day. -/
def tripleLt (d1 d2 : Date) : Prop :=
  d1.year < d2.year ∨
    (d1.year = d2.year ∧
      (d1.month < d2.month ∨ (d1.month = d2.month ∧ d1.day < d2.day)))

/-! ## Supporting lemmas -/

lemma lexLt_self : ∀ l : List Nat, lexLt l l = false
  | [] => rfl
  | _ :: as => by simp [lexLt, lexLt_self as]

lemma obsKeyLe_refl (a : Obs) : obsKeyLe a a = true := by
  simp [obsKeyLe, lexLe, lexLt_self]

lemma keyRel_refl (a : Obs) : keyRel a a := obsKeyLe_refl a

lemma sortObs_pair_self (d : Date) (s : Status) :
    sortObs [(d, s), (d, s)] = [(d, s), (d, s)] :=
  List.Sorted.insertionSort_eq (by
    simp [List.sorted_cons]
    exact keyRel_refl _)

lemma sortObs_sorted_pair {a b : Obs} (h : keyRel a b) : sortObs [a, b] = [a, b] :=
  List.Sorted.insertionSort_eq (by
    simp [List.sorted_cons]
    exact h)

lemma scanLoop_run :
    ∀ (rest : List Obs) (sd ed : Date) (st : Status),
      (∀ x ∈ rest, x.2 = st) →
      List.Chain' (fun x y : Obs => ordZ y.1 = ordZ x.1 + 1) ((ed, st) :: rest) →
      scanLoop sd ed st rest =
        [(sd, ((((ed, st) : Obs) :: rest).getLast (by simp)).1, st)]
  | [], sd, ed, st, _, _ => by simp [scanLoop]
  | (d, s) :: rest, sd, ed, st, hst, hch => by
    have hs : s = st := hst (d, s) (by simp)
    subst hs
    have hadj : ordZ d = ordZ ed + 1 := (List.chain'_cons.mp hch).1
    have hcond : s = s ∧ ordZ d - ordZ ed = 1 := ⟨rfl, by omega⟩
    rw [scanLoop, if_pos hcond]
    rw [scanLoop_run rest sd d s (fun x hx => hst x (by simp [hx]))
      (List.chain'_cons.mp hch).2]
    congr 1

lemma fixFirst_cons (r : Range) (rest : List Range) :
    fixFirst (r :: rest) =
      (if r.2.2 = Status.unavailable then (r.2.1, r.2.1, Status.lastDayOffSeason) else r) ::
        rest := by
  rcases r with ⟨sd, ed, st⟩
  by_cases h : st = Status.unavailable <;> simp [fixFirst, h]

lemma fixLast_concat (l : List Range) (b : Range) :
    fixLast (l ++ [b]) =
      l ++ [if b.2.2 = Status.unavailable then (b.1, b.1, Status.firstDayOffSeason) else b] := by
  rcases b with ⟨sd, ed, st⟩
  simp only [fixLast, List.getLast?_concat, List.dropLast_concat]
  split <;> simp_all

lemma fixLast_of_last_not_unavailable {l : List Range}
    (h : ∀ b ∈ l.getLast?, b.2.2 ≠ Status.unavailable) : fixLast l = l := by
  rcases List.eq_nil_or_concat l with rfl | ⟨l', b, rfl⟩
  · rfl
  · rw [List.concat_eq_append] at h ⊢
    rw [fixLast_concat, if_neg]
    exact h b (by simp [List.getLast?_concat])

lemma cons_append_singleton {α : Type} (x : α) (mid : List α) (c : α) :
    x :: (mid ++ [c]) = (x :: mid) ++ [c] := rfl

lemma fixFirst_length (l : List Range) : (fixFirst l).length = l.length := by
  rcases l with _ | ⟨r, rest⟩
  · rfl
  · rw [fixFirst_cons]
    rfl

lemma fixLast_length (l : List Range) : (fixLast l).length = l.length := by
  rcases List.eq_nil_or_concat l with rfl | ⟨l', b, rfl⟩
  · rfl
  · rw [List.concat_eq_append, fixLast_concat]
    simp

lemma boundary_correct_edges (l : List Range) (a b : Range) (ha : l.head? = some a)
    (hb : l.getLast? = some b) (hlen : 2 ≤ l.length) :
    (boundary_correct l).head? =
        some (if a.2.2 = Status.unavailable then (a.2.1, a.2.1, Status.lastDayOffSeason) else a) ∧
      (boundary_correct l).getLast? =
        some (if b.2.2 = Status.unavailable then (b.1, b.1, Status.firstDayOffSeason) else b) := by
  rcases l with _ | ⟨x, t⟩
  · simp at ha
  rcases List.eq_nil_or_concat t with rfl | ⟨mid, c, rfl⟩
  · simp at hlen
  rw [List.concat_eq_append] at ha hb ⊢
  have hx : x = a := by simpa using ha
  have hc : c = b := by
    rw [cons_append_singleton, List.getLast?_concat] at hb
    simpa using hb
  subst hx
  subst hc
  unfold boundary_correct
  rw [fixFirst_cons, cons_append_singleton, fixLast_concat]
  constructor
  · simp
  · rw [List.getLast?_concat]

lemma boundary_correct_interior (l : List Range) (i : Nat) (h1 : 1 ≤ i)
    (h2 : i + 1 < l.length) : (boundary_correct l)[i]? = l[i]? := by
  rcases l with _ | ⟨x, t⟩
  · simp at h2
  rcases List.eq_nil_or_concat t with rfl | ⟨mid, c, rfl⟩
  · simp at h2
  rw [List.concat_eq_append] at h2 ⊢
  unfold boundary_correct
  rw [fixFirst_cons, cons_append_singleton, fixLast_concat]
  rcases i with _ | j
  · omega
  have hmid : j < mid.length := by
    simp [List.length_append] at h2
    omega
  rw [List.getElem?_append_left (by simpa using Nat.succ_lt_succ hmid),
    List.getElem?_cons_succ, List.getElem?_cons_succ,
    List.getElem?_append_left hmid]

lemma boundary_correct_no_edge_unavailable (l : List Range)
    (hh : ∀ a ∈ l.head?, a.2.2 ≠ Status.unavailable)
    (hl : ∀ b ∈ l.getLast?, b.2.2 ≠ Status.unavailable) :
    boundary_correct l = l := by
  have hf : fixFirst l = l := by
    rcases l with _ | ⟨x, t⟩
    · rfl
    · rw [fixFirst_cons, if_neg (hh x (by simp))]
  unfold boundary_correct
  rw [hf, fixLast_of_last_not_unavailable hl]

/-! ## Claims -/

/-- C1: the claim states that every per-vessel timeline handed by `main`'s
year loop to the calendar emitter is strictly increasing in start date and
non-overlapping.  The code violates this on every multi-year run with at
least one observation, because `year_boats` is created once (line 226) and
never cleared between years, so every later year re-normalizes and re-appends
the earlier years' observations: a single vessel with the single observation
(2024-03-01, Booked) yields the same single-day range three times, which is
neither strictly increasing nor non-overlapping. -/
theorem claim_C1_aggregator_invariant_fails :
    main_range_boats [[[("A", [((⟨2024, 3, 1⟩ : Date), Status.booked)])]], [], []] =
        [("A", [((⟨2024, 3, 1⟩ : Date), (⟨2024, 3, 1⟩ : Date), Status.booked),
                ((⟨2024, 3, 1⟩ : Date), (⟨2024, 3, 1⟩ : Date), Status.booked),
                ((⟨2024, 3, 1⟩ : Date), (⟨2024, 3, 1⟩ : Date), Status.booked)])] ∧
      ¬ TimelineInv
          [((⟨2024, 3, 1⟩ : Date), (⟨2024, 3, 1⟩ : Date), Status.booked),
           ((⟨2024, 3, 1⟩ : Date), (⟨2024, 3, 1⟩ : Date), Status.booked),
           ((⟨2024, 3, 1⟩ : Date), (⟨2024, 3, 1⟩ : Date), Status.booked)] := by decide

/-- C2 counterexample: the claim states that a same-status run of consecutive
days spanning a month boundary yields two separate adjacent ranges.  With
vessel "V" observed Booked on 2024-03-31 (March period) and 2024-04-01 (April
period), the output contains only merged ranges spanning the boundary — no
range ends on 2024-03-31 — because `main` concatenates all months of a year
(and, cumulatively, all previous years) before normalizing. -/
theorem claim_C2_counterexample :
    main_range_boats
        [[[("V", [((⟨2024, 3, 31⟩ : Date), Status.booked)])],
          [("V", [((⟨2024, 4, 1⟩ : Date), Status.booked)])]], [], []] =
        [("V", [((⟨2024, 3, 31⟩ : Date), (⟨2024, 4, 1⟩ : Date), Status.booked),
                ((⟨2024, 3, 31⟩ : Date), (⟨2024, 4, 1⟩ : Date), Status.booked),
                ((⟨2024, 3, 31⟩ : Date), (⟨2024, 4, 1⟩ : Date), Status.booked)])] ∧
      ∀ p ∈ main_range_boats
          [[[("V", [((⟨2024, 3, 31⟩ : Date), Status.booked)])],
            [("V", [((⟨2024, 4, 1⟩ : Date), Status.booked)])]], [], []],
        ∀ r ∈ p.2, r.2.1 ≠ (⟨2024, 3, 31⟩ : Date) := by decide

/-- C2 amended: observations are accumulated across months per vessel and
normalized as one batch, so a same-status pair of consecutive days spanning
the March/April month boundary is merged by `get_range_status` into a single
range, not split in two. -/
theorem claim_C2_month_boundary_merged :
    ∀ s : Status, s ≠ Status.unavailable →
      get_range_status [((⟨2024, 3, 31⟩ : Date), s), ((⟨2024, 4, 1⟩ : Date), s)] =
        [((⟨2024, 3, 31⟩ : Date), (⟨2024, 4, 1⟩ : Date), s)] := by
  intro s hs
  have hkey : keyRel ((⟨2024, 3, 31⟩ : Date), s) ((⟨2024, 4, 1⟩ : Date), s) := by
    show lexLe (isoCodes ⟨2024, 3, 31⟩) (isoCodes ⟨2024, 4, 1⟩) = true
    decide
  rw [get_range_status, sortObs_sorted_pair hkey]
  have hord : ordZ (⟨2024, 4, 1⟩ : Date) - ordZ (⟨2024, 3, 31⟩ : Date) = 1 := by decide
  simp [scanLoop, hord, boundary_correct, fixFirst, fixLast, hs]

/-- C2 witness: the amended statement applied to the Booked status. -/
theorem claim_C2_witness :
    get_range_status
        [((⟨2024, 3, 31⟩ : Date), Status.booked), ((⟨2024, 4, 1⟩ : Date), Status.booked)] =
      [((⟨2024, 3, 31⟩ : Date), (⟨2024, 4, 1⟩ : Date), Status.booked)] :=
  claim_C2_month_boundary_merged Status.booked (by decide)

/-- C3: the scan of `get_range_status` extends the open range exactly when the
next observation has the same status and its date is exactly one day after
the current end, and otherwise closes the range and opens a single-day one;
consequently a non-empty same-status strictly-consecutive sequence yields one
range spanning from its first to its last date, and two same-status
observations separated by a one-day gap yield two distinct single-day
ranges. -/
theorem claim_C3_scan_rules :
    (∀ a b : Obs,
        scanRanges [a, b] =
          if b.2 = a.2 ∧ ordZ b.1 - ordZ a.1 = 1 then [(a.1, b.1, a.2)]
          else [(a.1, a.1, a.2), (b.1, b.1, b.2)]) ∧
    (∀ (o : Obs) (rest : List Obs),
        (∀ x ∈ o :: rest, x.2 = o.2) →
        List.Chain' (fun x y : Obs => ordZ y.1 = ordZ x.1 + 1) (o :: rest) →
        scanRanges (o :: rest) = [(o.1, ((o :: rest).getLast (by simp)).1, o.2)]) ∧
    (∀ (d1 d2 : Date) (s : Status), ordZ d2 = ordZ d1 + 2 →
        scanRanges [(d1, s), (d2, s)] = [(d1, d1, s), (d2, d2, s)]) := by
  refine ⟨?_, ?_, ?_⟩
  · rintro ⟨ad, as⟩ ⟨bd, bs⟩
    simp only [scanRanges, scanLoop]
  · rintro ⟨d, s⟩ rest hst hch
    simpa [scanRanges] using
      scanLoop_run rest d d s (fun x hx => hst x (by simp [hx])) hch
  · intro d1 d2 s h
    simp only [scanRanges, scanLoop]
    rw [if_neg (by simp; omega)]

/-- C3 witness: three consecutive Unavailable days merge into one range, and
a one-day gap splits two Booked observations into two single-day ranges. -/
theorem claim_C3_witness :
    scanRanges
        [((⟨2025, 3, 1⟩ : Date), Status.unavailable),
         ((⟨2025, 3, 2⟩ : Date), Status.unavailable),
         ((⟨2025, 3, 3⟩ : Date), Status.unavailable)] =
      [((⟨2025, 3, 1⟩ : Date), (⟨2025, 3, 3⟩ : Date), Status.unavailable)] ∧
    scanRanges [((⟨2025, 3, 1⟩ : Date), Status.booked), ((⟨2025, 3, 3⟩ : Date), Status.booked)] =
      [((⟨2025, 3, 1⟩ : Date), (⟨2025, 3, 1⟩ : Date), Status.booked),
       ((⟨2025, 3, 3⟩ : Date), (⟨2025, 3, 3⟩ : Date), Status.booked)] := by
  constructor
  · have h := claim_C3_scan_rules.2.1 ((⟨2025, 3, 1⟩ : Date), Status.unavailable)
      [((⟨2025, 3, 2⟩ : Date), Status.unavailable), ((⟨2025, 3, 3⟩ : Date), Status.unavailable)]
      (by decide)
      (List.chain'_cons.mpr ⟨by decide, List.chain'_cons.mpr
        ⟨by decide, List.chain'_singleton _⟩⟩)
    simpa using h
  · exact claim_C3_scan_rules.2.2 ⟨2025, 3, 1⟩ ⟨2025, 3, 3⟩ Status.booked (by decide)

/-- C4: on a yearly range list with at least two ranges, boundary correction
replaces an `Unavailable` first range by the single-day marker
(end, end, LastDayOffSeason) and an `Unavailable` last range by the
single-day marker (start, start, FirstDayOffSeason), leaving either edge
unchanged otherwise; in particular the spec's Scenario B list is rewritten
exactly as claimed.  (A single-range list is simultaneously both edges and is
governed by the sequential edge-case rule, settled with claim C5.) -/
theorem claim_C4_boundary_rules :
    (∀ (l : List Range) (a b : Range), l.head? = some a → l.getLast? = some b →
        2 ≤ l.length →
        (boundary_correct l).head? =
            some (if a.2.2 = Status.unavailable then (a.2.1, a.2.1, Status.lastDayOffSeason)
              else a) ∧
          (boundary_correct l).getLast? =
            some (if b.2.2 = Status.unavailable then (b.1, b.1, Status.firstDayOffSeason)
              else b)) ∧
    boundary_correct
        [((⟨2024, 3, 1⟩ : Date), (⟨2024, 3, 10⟩ : Date), Status.unavailable),
         ((⟨2024, 3, 11⟩ : Date), (⟨2024, 9, 20⟩ : Date), Status.available),
         ((⟨2024, 9, 21⟩ : Date), (⟨2024, 10, 31⟩ : Date), Status.unavailable)] =
      [((⟨2024, 3, 10⟩ : Date), (⟨2024, 3, 10⟩ : Date), Status.lastDayOffSeason),
       ((⟨2024, 3, 11⟩ : Date), (⟨2024, 9, 20⟩ : Date), Status.available),
       ((⟨2024, 9, 21⟩ : Date), (⟨2024, 9, 21⟩ : Date), Status.firstDayOffSeason)] := by
  constructor
  · exact boundary_correct_edges
  · decide

/-- C4 witness: the edge characterization applied to a concrete two-range
list with `Unavailable` at both edges. -/
theorem claim_C4_witness :
    (boundary_correct
        [((⟨2024, 3, 1⟩ : Date), (⟨2024, 3, 10⟩ : Date), Status.unavailable),
         ((⟨2024, 9, 21⟩ : Date), (⟨2024, 10, 31⟩ : Date), Status.unavailable)]).head? =
      some ((⟨2024, 3, 10⟩ : Date), (⟨2024, 3, 10⟩ : Date), Status.lastDayOffSeason) ∧
    (boundary_correct
        [((⟨2024, 3, 1⟩ : Date), (⟨2024, 3, 10⟩ : Date), Status.unavailable),
         ((⟨2024, 9, 21⟩ : Date), (⟨2024, 10, 31⟩ : Date), Status.unavailable)]).getLast? =
      some ((⟨2024, 9, 21⟩ : Date), (⟨2024, 9, 21⟩ : Date), Status.firstDayOffSeason) := by
  have h := claim_C4_boundary_rules.1
    [((⟨2024, 3, 1⟩ : Date), (⟨2024, 3, 10⟩ : Date), Status.unavailable),
     ((⟨2024, 9, 21⟩ : Date), (⟨2024, 10, 31⟩ : Date), Status.unavailable)]
    ((⟨2024, 3, 1⟩ : Date), (⟨2024, 3, 10⟩ : Date), Status.unavailable)
    ((⟨2024, 9, 21⟩ : Date), (⟨2024, 10, 31⟩ : Date), Status.unavailable)
    rfl (by decide) (by decide)
  simpa using h

/-- C5: on a yearly list of exactly one `Unavailable` range, the correction
block runs the first-range rule and then the last-range rule in that fixed
order; the first rewrite re-labels the range to LastDayOffSeason, so the
last-range check no longer sees `Unavailable` and the deterministic result
is the single marker built from the range's original end date — derived
solely from the range's original bounds, for every start and end date. -/
theorem claim_C5_single_range :
    ∀ sd ed : Date,
      boundary_correct [(sd, ed, Status.unavailable)] =
        [(ed, ed, Status.lastDayOffSeason)] :=
  fun _ _ => rfl

/-- C5 witness: the single-range rule at a concrete ten-day range. -/
theorem claim_C5_witness :
    boundary_correct [((⟨2024, 3, 1⟩ : Date), (⟨2024, 3, 10⟩ : Date), Status.unavailable)] =
      [((⟨2024, 3, 10⟩ : Date), (⟨2024, 3, 10⟩ : Date), Status.lastDayOffSeason)] :=
  claim_C5_single_range ⟨2024, 3, 1⟩ ⟨2024, 3, 10⟩

/-- C6 counterexample: the claim states that a duplicated date makes the
Normalizer fail fast with an InvalidInput error.  `get_range_status` has no
error path at all: on the duplicated input it returns a range list normally
(two single-day ranges), so no failure occurs. -/
theorem claim_C6_counterexample :
    get_range_status
        [((⟨2024, 3, 1⟩ : Date), Status.booked), ((⟨2024, 3, 1⟩ : Date), Status.booked)] =
      [((⟨2024, 3, 1⟩ : Date), (⟨2024, 3, 1⟩ : Date), Status.booked),
       ((⟨2024, 3, 1⟩ : Date), (⟨2024, 3, 1⟩ : Date), Status.booked)] := by decide

/-- C6 amended: `get_range_status` performs no duplicate detection and raises
no error; a date appearing twice with the same (non-Unavailable) status
produces two identical single-day ranges, because the zero-day difference
fails the adjacency test and closes the open range. -/
theorem claim_C6_duplicates_no_error :
    ∀ (d : Date) (s : Status), s ≠ Status.unavailable →
      get_range_status [(d, s), (d, s)] = [(d, d, s), (d, d, s)] := by
  intro d s hs
  rw [get_range_status, sortObs_pair_self]
  simp [scanLoop, boundary_correct, fixFirst, fixLast, hs]

/-- C6 witness: the amended statement at a concrete duplicated Booked date. -/
theorem claim_C6_witness :
    get_range_status
        [((⟨2024, 3, 5⟩ : Date), Status.booked), ((⟨2024, 3, 5⟩ : Date), Status.booked)] =
      [((⟨2024, 3, 5⟩ : Date), (⟨2024, 3, 5⟩ : Date), Status.booked),
       ((⟨2024, 3, 5⟩ : Date), (⟨2024, 3, 5⟩ : Date), Status.booked)] :=
  claim_C6_duplicates_no_error ⟨2024, 3, 5⟩ Status.booked (by decide)

/-- C7: boundary correction is a frame rule on the two edges: it preserves
list length, leaves every interior position unchanged, and returns any list
whose first and last ranges are both non-`Unavailable` entirely unchanged. -/
theorem claim_C7_frame :
    (∀ l : List Range, (boundary_correct l).length = l.length) ∧
    (∀ (l : List Range) (i : Nat), 1 ≤ i → i + 1 < l.length →
        (boundary_correct l)[i]? = l[i]?) ∧
    (∀ l : List Range,
        (∀ a ∈ l.head?, a.2.2 ≠ Status.unavailable) →
        (∀ b ∈ l.getLast?, b.2.2 ≠ Status.unavailable) →
        boundary_correct l = l) := by
  refine ⟨?_, boundary_correct_interior, boundary_correct_no_edge_unavailable⟩
  intro l
  unfold boundary_correct
  rw [fixLast_length, fixFirst_length]

/-- C7 witness: the frame rule at a concrete three-range list with an interior
`Unavailable` range and Booked edges. -/
theorem claim_C7_witness :
    (boundary_correct
        [((⟨2024, 3, 1⟩ : Date), (⟨2024, 3, 2⟩ : Date), Status.booked),
         ((⟨2024, 3, 5⟩ : Date), (⟨2024, 3, 6⟩ : Date), Status.unavailable),
         ((⟨2024, 3, 9⟩ : Date), (⟨2024, 3, 9⟩ : Date), Status.booked)])[1]? =
      [((⟨2024, 3, 1⟩ : Date), (⟨2024, 3, 2⟩ : Date), Status.booked),
       ((⟨2024, 3, 5⟩ : Date), (⟨2024, 3, 6⟩ : Date), Status.unavailable),
       ((⟨2024, 3, 9⟩ : Date), (⟨2024, 3, 9⟩ : Date), Status.booked)][1]? ∧
    boundary_correct
        [((⟨2024, 3, 1⟩ : Date), (⟨2024, 3, 2⟩ : Date), Status.booked),
         ((⟨2024, 3, 5⟩ : Date), (⟨2024, 3, 6⟩ : Date), Status.unavailable),
         ((⟨2024, 3, 9⟩ : Date), (⟨2024, 3, 9⟩ : Date), Status.booked)] =
      [((⟨2024, 3, 1⟩ : Date), (⟨2024, 3, 2⟩ : Date), Status.booked),
       ((⟨2024, 3, 5⟩ : Date), (⟨2024, 3, 6⟩ : Date), Status.unavailable),
       ((⟨2024, 3, 9⟩ : Date), (⟨2024, 3, 9⟩ : Date), Status.booked)] :=
  ⟨claim_C7_frame.2.1 _ 1 (by decide) (by decide),
   claim_C7_frame.2.2 _ (by decide) (by decide)⟩

/-- C9 counterexample: the claim states that invoking boundary correction on
an empty range list is a no-op returning the empty list.  The correction
block itself (lines 120-128), invoked directly on an empty list, evaluates
`grouped[0]` on an empty list and fails with an IndexError (modeled as
`none`); it does not return the empty list. -/
theorem claim_C9_counterexample :
    boundaryCorrectChecked ([] : List Range) = none ∧
      boundaryCorrectChecked ([] : List Range) ≠ some [] := by
  constructor
  · rfl
  · simp [boundaryCorrectChecked]

lemma lookupA_cons {β : Type} (pk : String) (pv : β) (rest : List (String × β)) (k : String) :
    lookupA ((pk, pv) :: rest) k = if pk = k then some pv else lookupA rest k := rfl

lemma lookupA_updateA {β : Type} :
    ∀ (m : List (String × β)) (k k' : String) (v : β),
      lookupA (updateA m k v) k' = if k = k' then some v else lookupA m k'
  | [], k, k', v => by
    by_cases h : k = k' <;> simp [updateA, lookupA, h]
  | (pk, pv) :: rest, k, k', v => by
    by_cases hpk : pk = k
    · subst hpk
      by_cases hk : pk = k' <;> simp [updateA, lookupA, hk]
    · have ih := lookupA_updateA rest k k' v
      by_cases hpk' : pk = k' <;> by_cases hk : k = k' <;>
        simp_all [updateA, lookupA]

lemma lookupA_append_single {β : Type} :
    ∀ (m : List (String × β)) (k k' : String) (v : β),
      lookupA (m ++ [(k, v)]) k' ≠ none ↔ lookupA m k' ≠ none ∨ k = k'
  | [], k, k', v => by
    by_cases h : k = k' <;> simp [lookupA, h]
  | (pk, pv) :: rest, k, k', v => by
    by_cases hpk : pk = k' <;>
      simp [lookupA, hpk, lookupA_append_single rest k k' v]

lemma parse_fold_lookup (year month : Nat) :
    ∀ (rows : List (String × List Cell)) (acc : BoatMap) (name : String),
      lookupA
          (rows.foldl (fun boats row =>
            let availability := rowAvailability year month row.2
            if availability = [] then boats else updateA boats row.1 availability) acc)
          name ≠ none ↔
        lookupA acc name ≠ none ∨
          ∃ cells, (name, cells) ∈ rows ∧ rowAvailability year month cells ≠ []
  | [], acc, name => by simp
  | (rn, rc) :: rows, acc, name => by
    rw [List.foldl_cons, parse_fold_lookup year month rows _ name]
    by_cases hav : rowAvailability year month rc = []
    · simp only [hav, if_pos rfl]
      constructor
      · rintro (h | ⟨cells, hmem, hc⟩)
        · exact Or.inl h
        · exact Or.inr ⟨cells, List.mem_cons_of_mem _ hmem, hc⟩
      · rintro (h | ⟨cells, hmem, hc⟩)
        · exact Or.inl h
        · rcases List.mem_cons.mp hmem with hceq | hmem'
          · injection hceq with h1 h2
            subst h2
            exact absurd hav hc
          · exact Or.inr ⟨cells, hmem', hc⟩
    · simp only [if_neg hav]
      have hupd := lookupA_updateA acc rn name (rowAvailability year month rc)
      constructor
      · rintro (h | ⟨cells, hmem, hc⟩)
        · rw [hupd] at h
          by_cases hrn : rn = name
          · exact Or.inr ⟨rc, by simp [hrn], hav⟩
          · rw [if_neg hrn] at h
            exact Or.inl h
        · exact Or.inr ⟨cells, List.mem_cons_of_mem _ hmem, hc⟩
      · rintro (h | ⟨cells, hmem, hc⟩)
        · refine Or.inl ?_
          rw [hupd]
          by_cases hrn : rn = name <;> simp [hrn, h]
        · rcases List.mem_cons.mp hmem with hceq | hmem'
          · injection hceq with h1 h2
            subst h1
            refine Or.inl ?_
            rw [hupd]
            simp
          · exact Or.inr ⟨cells, hmem', hc⟩

lemma collect_boats_lookup :
    ∀ (boats out : BoatMap) (name : String),
      lookupA (collect_boats boats out) name ≠ none →
        lookupA out name ≠ none ∨ lookupA boats name ≠ none
  | [], out, name => fun h => Or.inl h
  | (bn, bv) :: boats, out, name => by
    intro h
    rw [collect_boats, List.foldl_cons] at h
    change lookupA (collect_boats boats _) name ≠ none at h
    rcases collect_boats_lookup boats _ name h with h' | h'
    · rcases hout : lookupA out bn with _ | old
      · simp only [hout] at h'
        rcases (lookupA_append_single out bn name bv).mp h' with h'' | h''
        · exact Or.inl h''
        · subst h''
          exact Or.inr (by simp [lookupA_cons])
      · simp only [hout, lookupA_updateA] at h'
        by_cases hbn : bn = name
        · exact Or.inr (by simp [lookupA_cons, hbn])
        · rw [if_neg hbn] at h'
          exact Or.inl h'
    · refine Or.inr ?_
      rw [lookupA_cons]
      by_cases hbn : bn = name <;> simp [hbn, h']

lemma yearConsolidate_lookup :
    ∀ (yb : BoatMap) (rb : RangeMap) (name : String),
      lookupA (yearConsolidate yb rb) name ≠ none →
        lookupA rb name ≠ none ∨ lookupA yb name ≠ none
  | [], rb, name => fun h => Or.inl h
  | (bn, bv) :: yb, rb, name => by
    intro h
    rw [yearConsolidate, List.foldl_cons] at h
    change lookupA (yearConsolidate yb _) name ≠ none at h
    rcases yearConsolidate_lookup yb _ name h with h' | h'
    · rcases hrb : lookupA rb bn with _ | old
      · simp only [hrb] at h'
        rcases (lookupA_append_single rb bn name _).mp h' with h'' | h''
        · exact Or.inl h''
        · subst h''
          exact Or.inr (by simp [lookupA_cons])
      · simp only [hrb, lookupA_updateA] at h'
        by_cases hbn : bn = name
        · exact Or.inr (by simp [lookupA_cons, hbn])
        · rw [if_neg hbn] at h'
          exact Or.inl h'
    · refine Or.inr ?_
      rw [lookupA_cons]
      by_cases hbn : bn = name <;> simp [hbn, h']

lemma periods_fold_lookup :
    ∀ (periods : List BoatMap) (yb : BoatMap) (name : String),
      lookupA (periods.foldl (fun yb p => collect_boats p yb) yb) name ≠ none →
        lookupA yb name ≠ none ∨ ∃ p ∈ periods, lookupA p name ≠ none
  | [], yb, name => fun h => Or.inl h
  | p :: periods, yb, name => by
    intro h
    rw [List.foldl_cons] at h
    rcases periods_fold_lookup periods _ name h with h' | ⟨q, hq, hq'⟩
    · rcases collect_boats_lookup p yb name h' with h'' | h''
      · exact Or.inl h''
      · exact Or.inr ⟨p, by simp, h''⟩
    · exact Or.inr ⟨q, List.mem_cons_of_mem _ hq, hq'⟩

lemma main_fold_lookup :
    ∀ (years : List (List BoatMap)) (st : BoatMap × RangeMap) (name : String),
      lookupA
          ((years.foldl (fun acc periods =>
            let yb := periods.foldl (fun yb p => collect_boats p yb) acc.1
            (yb, yearConsolidate yb acc.2)) st).2) name ≠ none →
        lookupA st.1 name ≠ none ∨ lookupA st.2 name ≠ none ∨
          ∃ yr ∈ years, ∃ p ∈ yr, lookupA p name ≠ none
  | [], st, name => fun h => Or.inr (Or.inl h)
  | periods :: years, st, name => by
    intro h
    rw [List.foldl_cons] at h
    rcases main_fold_lookup years _ name h with h' | h' | ⟨yr, hyr, q, hq, hq'⟩
    · rcases periods_fold_lookup periods st.1 name h' with h'' | ⟨p, hp, hp'⟩
      · exact Or.inl h''
      · exact Or.inr (Or.inr ⟨periods, by simp, p, hp, hp'⟩)
    · rcases yearConsolidate_lookup _ st.2 name h' with h'' | h''
      · exact Or.inr (Or.inl h'')
      · rcases periods_fold_lookup periods st.1 name h'' with h3 | ⟨p, hp, hp'⟩
        · exact Or.inl h3
        · exact Or.inr (Or.inr ⟨periods, by simp, p, hp, hp'⟩)
    · exact Or.inr (Or.inr ⟨yr, List.mem_cons_of_mem _ hyr, q, hq, hq'⟩)

/-- C8: a vessel with zero kept observations never reaches the emitter:
`parse_boats` records a boat exactly when its row yields a non-empty
availability list, every vessel present in `main`'s output map appears in
some period's input map, and in the two-vessel scenario (one Booked March
observation for "A", only dropped cells for "B") the output keys are exactly
["A"]. -/
theorem claim_C8_empty_vessel_dropped :
    (∀ (rows : List (String × List Cell)) (year month : Nat) (name : String),
        lookupA (parse_boats rows year month) name ≠ none ↔
          ∃ cells, (name, cells) ∈ rows ∧ rowAvailability year month cells ≠ []) ∧
    (∀ (years : List (List BoatMap)) (name : String),
        lookupA (main_range_boats years) name ≠ none →
          ∃ yr ∈ years, ∃ p ∈ yr, lookupA p name ≠ none) ∧
    keysOf (main_range_boats
        [[parse_boats [("A", [⟨some 1, CellClass.cbgB4Web⟩]), ("B", [⟨some 2, CellClass.other⟩])]
            2024 3], [], []]) = ["A"] := by
  refine ⟨?_, ?_, by decide⟩
  · intro rows year month name
    rw [parse_boats, parse_fold_lookup year month rows [] name]
    simp [lookupA]
  · intro years name h
    rw [main_range_boats] at h
    rcases main_fold_lookup years ([], []) name h with h' | h' | h'
    · simp [lookupA] at h'
    · simp [lookupA] at h'
    · exact h'

/-- C8 witness: vessel "A" is in the parser output because its row kept an
observation, and is reachable in the aggregator output only through a period
that contains it. -/
theorem claim_C8_witness :
    (∃ cells, ("A", cells) ∈ [("A", [(⟨some 1, CellClass.cbgB4Web⟩ : Cell)])] ∧
        rowAvailability 2024 3 cells ≠ []) ∧
    (∃ yr ∈ [[[("A", [((⟨2024, 3, 1⟩ : Date), Status.booked)])]], ([] : List BoatMap), []],
        ∃ p ∈ yr, lookupA p "A" ≠ none) := by
  constructor
  · exact (claim_C8_empty_vessel_dropped.1
      [("A", [(⟨some 1, CellClass.cbgB4Web⟩ : Cell)])] 2024 3 "A").mp (by decide)
  · exact claim_C8_empty_vessel_dropped.2.1
      [[[("A", [((⟨2024, 3, 1⟩ : Date), Status.booked)])]], [], []] "A" (by decide)

/-- C9 amended: on the empty observation sequence `get_range_status` returns
the empty range list via its early return, which bypasses the correction
block entirely; the correction block is therefore never invoked on an empty
list, and invoked standalone on an empty list it fails with an index error
rather than acting as a no-op. -/
theorem claim_C9_empty :
    get_range_status ([] : List Obs) = [] ∧
      boundaryCorrectChecked ([] : List Range) = none :=
  ⟨rfl, rfl⟩

lemma lexLt_nil : lexLt [] [] = false := rfl

lemma lexLt_cons (a b : Nat) (as bs : List Nat) :
    lexLt (a :: as) (b :: bs) = true ↔ a < b ∨ (a = b ∧ lexLt as bs = true) := by
  show (if a < b then true else if b < a then false else lexLt as bs) = true ↔ _
  split_ifs with h1 h2
  · simp [h1]
  · simp only [Bool.false_eq_true, false_iff]
    rintro (h | ⟨rfl, -⟩) <;> omega
  · have hab : a = b := by omega
    subst hab
    simp

lemma lexLt_trans : ∀ {a b c : List Nat},
    lexLt a b = true → lexLt b c = true → lexLt a c = true
  | [], [], _, h, _ => by simp [lexLt] at h
  | [], _ :: _, [], _, h => by simp [lexLt] at h
  | [], _ :: _, _ :: _, _, _ => rfl
  | _ :: _, [], _, h, _ => by simp [lexLt] at h
  | _ :: _, _ :: _, [], _, h => by simp [lexLt] at h
  | a :: as, b :: bs, c :: cs, h1, h2 => by
    rw [lexLt_cons] at h1 h2 ⊢
    rcases h1 with h1 | ⟨e1, h1⟩ <;> rcases h2 with h2 | ⟨e2, h2⟩
    · exact Or.inl (by omega)
    · exact Or.inl (by omega)
    · exact Or.inl (by omega)
    · exact Or.inr ⟨by omega, lexLt_trans h1 h2⟩

lemma lexLt_trichotomy : ∀ a b : List Nat,
    lexLt a b = true ∨ a = b ∨ lexLt b a = true
  | [], [] => Or.inr (Or.inl rfl)
  | [], _ :: _ => Or.inl rfl
  | _ :: _, [] => Or.inr (Or.inr rfl)
  | a :: as, b :: bs => by
    rcases Nat.lt_trichotomy a b with h | rfl | h
    · exact Or.inl ((lexLt_cons a b as bs).mpr (Or.inl h))
    · rcases lexLt_trichotomy as bs with h | rfl | h
      · exact Or.inl ((lexLt_cons a a as bs).mpr (Or.inr ⟨rfl, h⟩))
      · exact Or.inr (Or.inl rfl)
      · exact Or.inr (Or.inr ((lexLt_cons a a bs as).mpr (Or.inr ⟨rfl, h⟩)))
    · exact Or.inr (Or.inr ((lexLt_cons b a bs as).mpr (Or.inl h)))

lemma lexLt_asymm {a b : List Nat} (h1 : lexLt a b = true) (h2 : lexLt b a = true) :
    False := by
  have := lexLt_trans h1 h2
  rw [lexLt_self] at this
  exact Bool.false_ne_true this

lemma daysInMonth_le31 (y m : Nat) : daysInMonth y m ≤ 31 := by
  unfold daysInMonth
  split <;> (try split_ifs) <;> omega

lemma lexLt_isoCodes_iff (d1 d2 : Date) (h1 : ValidDate d1) (h2 : ValidDate d2) :
    lexLt (isoCodes d1) (isoCodes d2) = true ↔ tripleLt d1 d2 := by
  obtain ⟨hy1a, hy1b, hm1a, hm1b, hd1a, hd1b⟩ := h1
  obtain ⟨hy2a, hy2b, hm2a, hm2b, hd2a, hd2b⟩ := h2
  have hdub1 : d1.day ≤ 31 := le_trans hd1b (daysInMonth_le31 _ _)
  have hdub2 : d2.day ≤ 31 := le_trans hd2b (daysInMonth_le31 _ _)
  simp only [isoCodes, digitCodes4, digitCodes2, List.cons_append, List.nil_append,
    List.append_assoc]
  simp only [lexLt_cons, lexLt_nil, tripleLt, Bool.false_eq_true, lt_self_iff_false,
    true_and, false_or, and_false, or_false]
  omega

lemma isLeap_iff (y : Nat) :
    isLeap y = true ↔ ((y % 4 = 0 ∧ y % 100 ≠ 0) ∨ y % 400 = 0) := by
  simp [isLeap]

set_option maxHeartbeats 1000000 in
lemma daysBeforeMonth_add_le (y m d : Nat) (hm1 : 1 ≤ m) (hm : m ≤ 12)
    (hd : d ≤ daysInMonth y m) : daysBeforeMonth y m + d ≤ daysInYear y := by
  unfold daysBeforeMonth daysInYear
  interval_cases m <;>
    simp only [daysBeforeMonthTable, daysInMonth] at hd ⊢ <;>
    cases hly : isLeap y <;>
    (try simp only [hly] at hd ⊢) <;>
    (try simp at hd ⊢) <;>
    omega

set_option maxHeartbeats 1000000 in
lemma daysBeforeMonth_succ (y m : Nat) (hm1 : 1 ≤ m) (hm : m ≤ 11) :
    daysBeforeMonth y (m + 1) = daysBeforeMonth y m + daysInMonth y m := by
  unfold daysBeforeMonth
  interval_cases m <;>
    simp only [daysBeforeMonthTable, daysInMonth] <;>
    cases hly : isLeap y <;>
    (try simp only [hly]) <;>
    (try simp)

lemma daysInYear_of_leap {y : Nat} (h : (y % 4 = 0 ∧ y % 100 ≠ 0) ∨ y % 400 = 0) :
    daysInYear y = 366 := by
  unfold daysInYear
  rw [if_pos ((isLeap_iff y).mpr h)]

lemma daysInYear_of_not_leap {y : Nat}
    (h : ¬ ((y % 4 = 0 ∧ y % 100 ≠ 0) ∨ y % 400 = 0)) : daysInYear y = 365 := by
  unfold daysInYear
  rw [if_neg (fun hc => h ((isLeap_iff y).mp hc))]

set_option maxHeartbeats 1000000 in
lemma daysBeforeYear_succ (y : Nat) (h : 1 ≤ y) :
    daysBeforeYear (y + 1) = daysBeforeYear y + daysInYear y := by
  by_cases hp : (y % 4 = 0 ∧ y % 100 ≠ 0) ∨ y % 400 = 0
  · rw [daysInYear_of_leap hp]
    unfold daysBeforeYear
    omega
  · rw [daysInYear_of_not_leap hp]
    unfold daysBeforeYear
    omega

lemma daysBeforeYear_le_succ (y : Nat) : daysBeforeYear y ≤ daysBeforeYear (y + 1) := by
  unfold daysBeforeYear
  omega

lemma daysBeforeYear_mono : ∀ {y y' : Nat}, y ≤ y' → daysBeforeYear y ≤ daysBeforeYear y' := by
  intro y y' h
  induction y' with
  | zero =>
    have hy : y = 0 := by omega
    subst hy
    exact le_refl _
  | succ n ih =>
    by_cases hyn : y ≤ n
    · exact le_trans (ih hyn) (daysBeforeYear_le_succ n)
    · have hy : y = n + 1 := by omega
      subst hy
      exact le_refl _

lemma daysBeforeMonth_mono (y : Nat) {m m' : Nat} (h : m ≤ m') (hm : 1 ≤ m) (hm' : m' ≤ 12) :
    daysBeforeMonth y m ≤ daysBeforeMonth y m' := by
  unfold daysBeforeMonth
  have ht : daysBeforeMonthTable m ≤ daysBeforeMonthTable m' := by
    interval_cases m' <;> interval_cases m <;> decide
  have hc : (if 2 < m ∧ isLeap y = true then 1 else 0 : Nat) ≤
      (if 2 < m' ∧ isLeap y = true then 1 else 0) := by
    split_ifs with ha hb
    · exact le_refl _
    · exact absurd ⟨by omega, ha.2⟩ hb
    · omega
    · exact le_refl _
  omega

lemma toOrdinal_lt_of_tripleLt {d1 d2 : Date} (h1 : ValidDate d1) (h2 : ValidDate d2)
    (h : tripleLt d1 d2) : toOrdinal d1 < toOrdinal d2 := by
  obtain ⟨hy1a, hy1b, hm1a, hm1b, hd1a, hd1b⟩ := h1
  obtain ⟨hy2a, hy2b, hm2a, hm2b, hd2a, hd2b⟩ := h2
  rcases h with hy | ⟨hyeq, hm | ⟨hmeq, hd⟩⟩
  · have hub : daysBeforeMonth d1.year d1.month + d1.day ≤ daysInYear d1.year :=
      daysBeforeMonth_add_le _ _ _ hm1a hm1b hd1b
    have hstep : daysBeforeYear (d1.year + 1) =
        daysBeforeYear d1.year + daysInYear d1.year :=
      daysBeforeYear_succ _ hy1a
    have hmono : daysBeforeYear (d1.year + 1) ≤ daysBeforeYear d2.year :=
      daysBeforeYear_mono (by omega)
    unfold toOrdinal
    omega
  · have hstep : daysBeforeMonth d1.year (d1.month + 1) =
        daysBeforeMonth d1.year d1.month + daysInMonth d1.year d1.month :=
      daysBeforeMonth_succ _ _ hm1a (by omega)
    have hmono : daysBeforeMonth d1.year (d1.month + 1) ≤
        daysBeforeMonth d1.year d2.month :=
      daysBeforeMonth_mono _ (by omega) (by omega) hm2b
    unfold toOrdinal
    rw [hyeq] at hstep hmono hd1b ⊢
    omega
  · unfold toOrdinal
    rw [hyeq, hmeq]
    omega

lemma tripleLt_iff_toOrdinal {d1 d2 : Date} (h1 : ValidDate d1) (h2 : ValidDate d2) :
    tripleLt d1 d2 ↔ toOrdinal d1 < toOrdinal d2 := by
  constructor
  · exact toOrdinal_lt_of_tripleLt h1 h2
  · intro h
    by_contra hn
    have htri : tripleLt d2 d1 ∨
        (d1.year = d2.year ∧ d1.month = d2.month ∧ d1.day = d2.day) := by
      unfold tripleLt at hn ⊢
      omega
    rcases htri with hlt | ⟨he1, he2, he3⟩
    · have := toOrdinal_lt_of_tripleLt h2 h1 hlt
      omega
    · have heq : toOrdinal d1 = toOrdinal d2 := by
        unfold toOrdinal
        rw [he1, he2, he3]
      omega

lemma keyRel_iff_not_lt {a b : Obs} :
    keyRel a b ↔ lexLt (isoCodes b.1) (isoCodes a.1) = false := by
  unfold keyRel obsKeyLe lexLe
  cases lexLt (isoCodes b.1) (isoCodes a.1) <;> simp

lemma keyRel_total (a b : Obs) : keyRel a b ∨ keyRel b a := by
  rcases lexLt_trichotomy (isoCodes a.1) (isoCodes b.1) with h | h | h
  · refine Or.inl (keyRel_iff_not_lt.mpr ?_)
    cases hba : lexLt (isoCodes b.1) (isoCodes a.1)
    · rfl
    · exact absurd (lexLt_asymm h hba) (fun f => f)
  · refine Or.inl (keyRel_iff_not_lt.mpr ?_)
    rw [h, lexLt_self]
  · refine Or.inr (keyRel_iff_not_lt.mpr ?_)
    cases hba : lexLt (isoCodes a.1) (isoCodes b.1)
    · rfl
    · exact absurd (lexLt_asymm h hba) (fun f => f)

lemma keyRel_trans (a b c : Obs) (hab : keyRel a b) (hbc : keyRel b c) : keyRel a c := by
  rw [keyRel_iff_not_lt] at hab hbc ⊢
  cases hca : lexLt (isoCodes c.1) (isoCodes a.1)
  · rfl
  · rcases lexLt_trichotomy (isoCodes b.1) (isoCodes c.1) with h | h | h
    · have := lexLt_trans h hca
      rw [hab] at this
      exact absurd this (by simp)
    · rw [← h] at hca
      rw [hab] at hca
      exact absurd hca (by simp)
    · rw [hbc] at h
      exact absurd h (by simp)

/-- C10: `get_range_status` sorts observations by the ISO string key
(`sorted(day_status, key=lambda x: x[0])`), and for every pair of dates
accepted by the `datetime(year, month, day)` constructor, strict
lexicographic order on their `isoformat` strings coincides with
chronological order of the underlying dates (their proleptic Gregorian
ordinals); consequently the sorted list the scan processes is chronologically
ascending. -/
theorem claim_C10_iso_key_order :
    (∀ d1 d2 : Date, ValidDate d1 → ValidDate d2 →
        (lexLt (isoCodes d1) (isoCodes d2) = true ↔ toOrdinal d1 < toOrdinal d2)) ∧
    (∀ l : List Obs, (∀ o ∈ l, ValidDate o.1) →
        List.Pairwise (fun a b : Obs => toOrdinal a.1 ≤ toOrdinal b.1) (sortObs l)) := by
  have key : ∀ d1 d2 : Date, ValidDate d1 → ValidDate d2 →
      (lexLt (isoCodes d1) (isoCodes d2) = true ↔ toOrdinal d1 < toOrdinal d2) := by
    intro d1 d2 h1 h2
    rw [lexLt_isoCodes_iff d1 d2 h1 h2]
    exact tripleLt_iff_toOrdinal h1 h2
  refine ⟨key, ?_⟩
  intro l hval
  haveI : IsTotal Obs keyRel := ⟨keyRel_total⟩
  haveI : IsTrans Obs keyRel := ⟨keyRel_trans⟩
  have hs : List.Pairwise keyRel (sortObs l) := List.sorted_insertionSort keyRel l
  refine List.Pairwise.imp_of_mem ?_ hs
  intro a b ha hb hab
  have hva : ValidDate a.1 := hval a ((List.perm_insertionSort keyRel l).mem_iff.mp ha)
  have hvb : ValidDate b.1 := hval b ((List.perm_insertionSort keyRel l).mem_iff.mp hb)
  by_contra hlt
  push_neg at hlt
  have hba := (key b.1 a.1 hvb hva).mpr hlt
  rw [keyRel_iff_not_lt] at hab
  rw [hab] at hba
  exact absurd hba (by simp)

/-- C10 witness: the order correspondence at the concrete pair 2024-03-31 and
2024-04-01, and chronological sortedness of a concrete out-of-order
observation list. -/
theorem claim_C10_witness :
    (lexLt (isoCodes ⟨2024, 3, 31⟩) (isoCodes ⟨2024, 4, 1⟩) = true ↔
        toOrdinal ⟨2024, 3, 31⟩ < toOrdinal ⟨2024, 4, 1⟩) ∧
    List.Pairwise (fun a b : Obs => toOrdinal a.1 ≤ toOrdinal b.1)
      (sortObs [((⟨2024, 4, 1⟩ : Date), Status.booked),
        ((⟨2024, 3, 31⟩ : Date), Status.unavailable)]) :=
  ⟨claim_C10_iso_key_order.1 ⟨2024, 3, 31⟩ ⟨2024, 4, 1⟩ (by decide) (by decide),
   claim_C10_iso_key_order.2
     [((⟨2024, 4, 1⟩ : Date), Status.booked), ((⟨2024, 3, 31⟩ : Date), Status.unavailable)]
     (by decide)⟩

end Scrape
